import Mathlib

/-!
Verification of the omni_table decision-and-control node
(`omni_table_demo.py`) against its natural-language specification.

The node's core logic is shallowly embedded here:
- `Action` is the closed 11-value enumeration, in source order.
- `ActionSelector.select_action` is embedded as `select_action`: the language
  model is a parameter (`lm`) mapping the constructed prompt to the list of
  candidate texts; scoring and Python's first-max `max(scores, key=...)` are
  translated exactly.  Scores use `ℚ` (exact arithmetic in place of the
  source's floats).
- `SimpleValueFunction.get_value` is embedded as `get_value` over an
  association list, with `dict.get`'s default-0 behaviour.
- `MotionController.get_twist_for_action` is embedded over `ℝ`, with
  `DIAGONAL_FACTOR = Real.cos (π/4)` in place of `math.cos(math.pi/4)`.
- A fallible variant `select_actionE` models the language-model call raising:
  the source has no handler, so the error propagates.
-/

set_option autoImplicit false

namespace OmniTable

/-- The closed enumeration of 11 motion intents, in the source's
declaration order (the order `for action in Action` iterates). -/
inductive Action : Type
  | MOVE_FORWARD
  | MOVE_BACKWARD
  | MOVE_LEFT
  | MOVE_RIGHT
  | MOVE_FORWARD_LEFT
  | MOVE_FORWARD_RIGHT
  | MOVE_BACKWARD_LEFT
  | MOVE_BACKWARD_RIGHT
  | SPIN_CLOCKWISE
  | SPIN_COUNTERCLOCKWISE
  | STOP
  deriving DecidableEq, Repr

/-- `Action.value`: the canonical lowercase keyword of each action, exactly
the string values of the Python `Action(Enum)`. -/
def Action.value : Action → String
  | .MOVE_FORWARD => "move_forward"
  | .MOVE_BACKWARD => "move_backward"
  | .MOVE_LEFT => "move_left"
  | .MOVE_RIGHT => "move_right"
  | .MOVE_FORWARD_LEFT => "move_forward_left"
  | .MOVE_FORWARD_RIGHT => "move_forward_right"
  | .MOVE_BACKWARD_LEFT => "move_backward_left"
  | .MOVE_BACKWARD_RIGHT => "move_backward_right"
  | .SPIN_CLOCKWISE => "spin_clockwise"
  | .SPIN_COUNTERCLOCKWISE => "spin_counterclockwise"
  | .STOP => "stop"

/-- The enumeration order `for action in Action` iterates over. -/
def actionList : List Action :=
  [.MOVE_FORWARD, .MOVE_BACKWARD, .MOVE_LEFT, .MOVE_RIGHT,
   .MOVE_FORWARD_LEFT, .MOVE_FORWARD_RIGHT, .MOVE_BACKWARD_LEFT,
   .MOVE_BACKWARD_RIGHT, .SPIN_CLOCKWISE, .SPIN_COUNTERCLOCKWISE, .STOP]

/-- The keyword of an action, as a character list (texts are modelled as
character lists so that Python's `.lower()` and `in` are explicit). -/
def keywordChars (a : Action) : List Char :=
  a.value.toList

/-- Python's `str.lower()` on a text, character by character. -/
def lowerChars (s : List Char) : List Char :=
  s.map Char.toLower

/-- `startsWithChars needle hay`: `hay` begins with `needle`. -/
def startsWithChars : List Char → List Char → Bool
  | [], _ => true
  | _ :: _, [] => false
  | a :: as, b :: bs => a == b && startsWithChars as bs

/-- Python's substring test `needle in hay`: some suffix of `hay` begins
with `needle`. -/
def containsSub (needle : List Char) : List Char → Bool
  | [] => startsWithChars needle []
  | c :: rest => startsWithChars needle (c :: rest) || containsSub needle rest

/-- The scoring loop of `ActionSelector.select_action` (source lines 83-88):
for every proposal, for every action in enumeration order, if the action's
keyword occurs in the proposal's lowercased text, append
`(action, get_value(action) * confidence)`. -/
def scoreCandidates (v : Action → ℚ) (confidence : ℚ)
    (candidates : List (List Char)) : List (Action × ℚ) :=
  candidates.flatMap fun cand =>
    actionList.filterMap fun a =>
      if containsSub (keywordChars a) (lowerChars cand)
      then some (a, v a * confidence)
      else none

/-- One step of Python's `max(scores, key=lambda x: x[1])`: the running
maximum is replaced only when the new key is strictly greater, so the first
occurrence of the maximum is kept. -/
def betterOf (best q : Action × ℚ) : Action × ℚ :=
  if best.2 < q.2 then q else best

/-- `if scores: return max(scores, key=lambda x: x[1])[0]; return Action.STOP`
(source lines 90-92). -/
def pickMax : List (Action × ℚ) → Action
  | [] => Action.STOP
  | p :: rest => (rest.foldl betterOf p).1

/-- Decimal rendering of a rational, standing in for Python's float
formatting inside the f-string (the prompt's exact text never feeds back
into scoring, only into the language-model call). -/
def ratStr (q : ℚ) : String :=
  toString q.num ++ "/" ++ toString q.den

/-- The prompt f-string of `select_action` (source line 80). -/
def mkPrompt (context : String) (angle confidence : ℚ) : String :=
  "Context: " ++ context ++ "\nSound detected at angle " ++ ratStr angle ++
    " degrees with confidence " ++ ratStr confidence ++
    ". The robot table should"

/-- `ActionSelector.select_action` (source lines 79-92): build the prompt
from context, angle and confidence; obtain candidate texts from the language
model `lm`; score them; return the first-max action, or STOP when no keyword
matched. -/
def select_action (lm : String → List (List Char)) (v : Action → ℚ)
    (context : String) (angle confidence : ℚ) : Action :=
  pickMax (scoreCandidates v confidence (lm (mkPrompt context angle confidence)))

/-- `select_action` with a fallible language model: the source wraps the
`generate` call in no try/except, so a raised error propagates out of
`select_action` unhandled.  `Except.error` models the raised exception. -/
def select_actionE {ε : Type} (lm : String → Except ε (List (List Char)))
    (v : Action → ℚ) (context : String) (angle confidence : ℚ) :
    Except ε Action :=
  match lm (mkPrompt context angle confidence) with
  | Except.error e => Except.error e
  | Except.ok candidates => Except.ok (pickMax (scoreCandidates v confidence candidates))

/-- The shipped value table of `SimpleValueFunction.__init__`
(source lines 53-65). -/
def simpleValues : List (Action × ℚ) :=
  [(.MOVE_FORWARD, 5/10), (.MOVE_BACKWARD, 4/10), (.MOVE_LEFT, 4/10),
   (.MOVE_RIGHT, 4/10), (.MOVE_FORWARD_LEFT, 45/100), (.MOVE_FORWARD_RIGHT, 45/100),
   (.MOVE_BACKWARD_LEFT, 35/100), (.MOVE_BACKWARD_RIGHT, 35/100),
   (.SPIN_CLOCKWISE, 3/10), (.SPIN_COUNTERCLOCKWISE, 3/10), (.STOP, 1/10)]

/-- `SimpleValueFunction.get_value` (source lines 67-68):
`self.values.get(action, 0.0)` — the stored weight, defaulting to 0. -/
def get_value (action : Action) : ℚ :=
  (simpleValues.lookup action).getD 0

/-- The `geometry_msgs` `Twist` message: linear and angular velocity, three
components each.  `Twist()` zero-initialises every component; real numbers
stand in for the message's float64 fields. -/
structure Twist : Type where
  linear_x : ℝ
  linear_y : ℝ
  linear_z : ℝ
  angular_x : ℝ
  angular_y : ℝ
  angular_z : ℝ

/-- `DEFAULT_SPEED = 0.2` (source line 28). -/
noncomputable def DEFAULT_SPEED : ℝ := 0.2

/-- `DIAGONAL_FACTOR = math.cos(math.pi/4)` (source line 29), idealised to
the exact real `cos (π/4)`. -/
noncomputable def DIAGONAL_FACTOR : ℝ := Real.cos (Real.pi / 4)

/-- `MotionController.get_twist_for_action` (source lines 94-122): start from
a zero `Twist` and set the components the selected action requires; an action
matching no branch (STOP) leaves the zero twist. -/
noncomputable def get_twist_for_action (action : Action) (speed : ℝ) : Twist :=
  let twist : Twist :=
    { linear_x := 0, linear_y := 0, linear_z := 0,
      angular_x := 0, angular_y := 0, angular_z := 0 }
  if action = Action.MOVE_FORWARD then { twist with linear_x := speed }
  else if action = Action.MOVE_BACKWARD then { twist with linear_x := -speed }
  else if action = Action.MOVE_LEFT then { twist with linear_y := speed }
  else if action = Action.MOVE_RIGHT then { twist with linear_y := -speed }
  else if action = Action.MOVE_FORWARD_LEFT then
    { twist with linear_x := speed * DIAGONAL_FACTOR,
                 linear_y := speed * DIAGONAL_FACTOR }
  else if action = Action.MOVE_FORWARD_RIGHT then
    { twist with linear_x := speed * DIAGONAL_FACTOR,
                 linear_y := -speed * DIAGONAL_FACTOR }
  else if action = Action.MOVE_BACKWARD_LEFT then
    { twist with linear_x := -speed * DIAGONAL_FACTOR,
                 linear_y := speed * DIAGONAL_FACTOR }
  else if action = Action.MOVE_BACKWARD_RIGHT then
    { twist with linear_x := -speed * DIAGONAL_FACTOR,
                 linear_y := -speed * DIAGONAL_FACTOR }
  else if action = Action.SPIN_CLOCKWISE then { twist with angular_z := -speed }
  else if action = Action.SPIN_COUNTERCLOCKWISE then { twist with angular_z := speed }
  else twist

/-- The velocity-command table of spec section 4.4, written directly from the
spec's table (with `s` the speed and `d = cos (π/4)` the diagonal factor),
for comparison with the source's `get_twist_for_action`. -/
noncomputable def specTwistTable (a : Action) (s : ℝ) : Twist :=
  match a with
  | .MOVE_FORWARD => ⟨s, 0, 0, 0, 0, 0⟩
  | .MOVE_BACKWARD => ⟨-s, 0, 0, 0, 0, 0⟩
  | .MOVE_LEFT => ⟨0, s, 0, 0, 0, 0⟩
  | .MOVE_RIGHT => ⟨0, -s, 0, 0, 0, 0⟩
  | .MOVE_FORWARD_LEFT =>
      ⟨s * Real.cos (Real.pi / 4), s * Real.cos (Real.pi / 4), 0, 0, 0, 0⟩
  | .MOVE_FORWARD_RIGHT =>
      ⟨s * Real.cos (Real.pi / 4), -(s * Real.cos (Real.pi / 4)), 0, 0, 0, 0⟩
  | .MOVE_BACKWARD_LEFT =>
      ⟨-(s * Real.cos (Real.pi / 4)), s * Real.cos (Real.pi / 4), 0, 0, 0, 0⟩
  | .MOVE_BACKWARD_RIGHT =>
      ⟨-(s * Real.cos (Real.pi / 4)), -(s * Real.cos (Real.pi / 4)), 0, 0, 0, 0⟩
  | .SPIN_CLOCKWISE => ⟨0, 0, 0, 0, 0, -s⟩
  | .SPIN_COUNTERCLOCKWISE => ⟨0, 0, 0, 0, 0, s⟩
  | .STOP => ⟨0, 0, 0, 0, 0, 0⟩

/-- The language model of the spec section 8 scenario: whatever the prompt,
the candidates are "move_forward_left please" and "spin_clockwise too". -/
def lmScenario : String → List (List Char) :=
  fun _ => ["move_forward_left please".toList, "spin_clockwise too".toList]

/-! ### Helper lemmas -/

lemma filterMap_if_eq_filter_map {α β : Type} (l : List α) (p : α → Bool) (g : α → β) :
    (l.filterMap fun a => if p a then some (g a) else none) = (l.filter p).map g := by
  induction l with
  | nil => rfl
  | cons x xs ih =>
      by_cases hx : p x = true
      · simp [List.filterMap_cons, List.filter_cons, hx, ih]
      · simp [List.filterMap_cons, List.filter_cons, hx, ih]

/-- The scoring loop, rewritten as: for each candidate, the actions whose
keyword occurs in it (in enumeration order), each paired with
`value × confidence`. -/
lemma scoreCandidates_eq (v : Action → ℚ) (c : ℚ) (cands : List (List Char)) :
    scoreCandidates v c cands =
      cands.flatMap fun cand =>
        (actionList.filter fun a => containsSub (keywordChars a) (lowerChars cand)).map
          fun a => (a, v a * c) := by
  unfold scoreCandidates
  refine congrArg _ ?_
  funext cand
  exact filterMap_if_eq_filter_map actionList _ _

lemma get_value_cases : ∀ a : Action, get_value a =
    match a with
    | .MOVE_FORWARD => 5/10
    | .MOVE_BACKWARD => 4/10
    | .MOVE_LEFT => 4/10
    | .MOVE_RIGHT => 4/10
    | .MOVE_FORWARD_LEFT => 45/100
    | .MOVE_FORWARD_RIGHT => 45/100
    | .MOVE_BACKWARD_LEFT => 35/100
    | .MOVE_BACKWARD_RIGHT => 35/100
    | .SPIN_CLOCKWISE => 3/10
    | .SPIN_COUNTERCLOCKWISE => 3/10
    | .STOP => 1/10 := by
  intro a
  cases a <;> rfl

lemma mem_actionList (a : Action) : a ∈ actionList := by
  cases a <;> decide

lemma actionList_nodup : actionList.Nodup := by decide

/-- Every element of the score list is some action paired with its value
scaled by the confidence. -/
lemma mem_scoreCandidates {v : Action → ℚ} {c : ℚ} {cands : List (List Char)}
    {q : Action × ℚ} (hq : q ∈ scoreCandidates v c cands) :
    ∃ a : Action, q = (a, v a * c) := by
  simp only [scoreCandidates, List.mem_flatMap, List.mem_filterMap] at hq
  obtain ⟨cand, -, a, -, ha⟩ := hq
  by_cases hc : containsSub (keywordChars a) (lowerChars cand) = true
  · rw [if_pos hc] at ha
    exact ⟨a, (Option.some.inj ha).symm⟩
  · rw [if_neg hc] at ha
    exact absurd ha (by simp)

lemma scoreCandidates_eq_nil {v : Action → ℚ} {c : ℚ} {cands : List (List Char)}
    (h : ∀ cand ∈ cands, ∀ a : Action,
      containsSub (keywordChars a) (lowerChars cand) = false) :
    scoreCandidates v c cands = [] := by
  rw [scoreCandidates_eq]
  rw [List.flatMap_eq_nil_iff]
  intro cand hcand
  rw [List.map_eq_nil_iff, List.filter_eq_nil_iff]
  intro a _
  simp [h cand hcand a]

/-- If no element of the list beats the accumulator, Python's running max
keeps the accumulator. -/
lemma foldl_betterOf_le (l : List (Action × ℚ)) :
    ∀ best : Action × ℚ, (∀ q ∈ l, q.2 ≤ best.2) → l.foldl betterOf best = best := by
  induction l with
  | nil => intro best _; rfl
  | cons p rest ih =>
      intro best h
      rw [List.foldl_cons]
      have hb : betterOf best p = best := by
        simp [betterOf, not_lt.mpr (h p (List.mem_cons_self p rest))]
      rw [hb]
      exact ih best fun q hq => h q (List.mem_cons_of_mem p hq)

/-- Python's `max(·, key)` over a strict-greater fold: the result is an
element of the list, its key is maximal, and every element strictly before it
has a strictly smaller key (first occurrence of the maximum wins). -/
lemma foldl_betterOf_first_max (l : List (Action × ℚ)) :
    ∀ best : Action × ℚ,
      ∃ l₁ l₂,
        best :: l = l₁ ++ (l.foldl betterOf best) :: l₂ ∧
        (∀ q ∈ best :: l, q.2 ≤ (l.foldl betterOf best).2) ∧
        (∀ q ∈ l₁, q.2 < (l.foldl betterOf best).2) := by
  induction l with
  | nil =>
      intro best
      refine ⟨[], [], rfl, ?_, ?_⟩
      · intro q hq
        rw [List.mem_singleton] at hq
        subst hq
        exact le_refl _
      · intro q hq
        exact absurd hq (List.not_mem_nil q)
  | cons p rest ih =>
      intro best
      rw [List.foldl_cons]
      by_cases hcmp : best.2 < p.2
      · have hb : betterOf best p = p := by simp [betterOf, hcmp]
        rw [hb]
        obtain ⟨l₁, l₂, hsplit, hub, hstr⟩ := ih p
        refine ⟨best :: l₁, l₂, ?_, ?_, ?_⟩
        · rw [List.cons_append, ← hsplit]
        · intro q hq
          rcases List.mem_cons.mp hq with rfl | hq2
          · exact le_of_lt (lt_of_lt_of_le hcmp (hub p (List.mem_cons_self p rest)))
          · exact hub q hq2
        · intro q hq
          rcases List.mem_cons.mp hq with rfl | hq2
          · exact lt_of_lt_of_le hcmp (hub p (List.mem_cons_self p rest))
          · exact hstr q hq2
      · have hb : betterOf best p = best := by simp [betterOf, hcmp]
        rw [hb]
        obtain ⟨l₁, l₂, hsplit, hub, hstr⟩ := ih best
        have hple : p.2 ≤ best.2 := le_of_not_lt hcmp
        cases l₁ with
        | nil =>
            rw [List.nil_append] at hsplit
            injection hsplit with hb1 hb2
            refine ⟨[], p :: rest, ?_, ?_, ?_⟩
            · rw [List.nil_append, ← hb1]
            · intro q hq
              rcases List.mem_cons.mp hq with rfl | hq2
              · exact hub q (List.mem_cons_self q rest)
              rcases List.mem_cons.mp hq2 with rfl | hq3
              · exact le_trans hple (hub best (List.mem_cons_self best rest))
              · exact hub q (List.mem_cons_of_mem best hq3)
            · intro q hq
              exact absurd hq (List.not_mem_nil q)
        | cons b t =>
            rw [List.cons_append] at hsplit
            injection hsplit with hb1 hb2
            have hbest_lt : best.2 < (rest.foldl betterOf best).2 := by
              have hbmem := hstr b (List.mem_cons_self b t)
              rwa [← hb1] at hbmem
            refine ⟨best :: p :: t, l₂, ?_, ?_, ?_⟩
            · rw [List.cons_append, List.cons_append, ← hb2]
            · intro q hq
              rcases List.mem_cons.mp hq with rfl | hq2
              · exact hub q (List.mem_cons_self q rest)
              rcases List.mem_cons.mp hq2 with rfl | hq3
              · exact le_trans hple (hub best (List.mem_cons_self best rest))
              · exact hub q (List.mem_cons_of_mem best hq3)
            · intro q hq
              rcases List.mem_cons.mp hq with rfl | hq2
              · exact hbest_lt
              rcases List.mem_cons.mp hq2 with rfl | hq3
              · exact lt_of_le_of_lt hple hbest_lt
              · exact hstr q (List.mem_cons_of_mem b hq3)

/-- Multiplicity of a pair in the inner scoring loop over a duplicate-free
action list: one when the action is listed, matches, and carries the right
score; zero otherwise. -/
lemma count_filterMap_nodup (l : List Action) (hl : l.Nodup) (p : Action → Bool)
    (g : Action → ℚ) (a : Action) (s : ℚ) :
    ((l.filterMap fun x => if p x then some (x, g x) else none).count (a, s)) =
      if a ∈ l ∧ p a = true ∧ s = g a then 1 else 0 := by
  induction l with
  | nil => simp
  | cons x xs ih =>
      rw [List.nodup_cons] at hl
      obtain ⟨hx, hxs⟩ := hl
      have hrest := ih hxs
      by_cases hpx : p x = true
      · have hcons : (List.filterMap (fun y => if p y then some (y, g y) else none) (x :: xs)) =
            (x, g x) :: List.filterMap (fun y => if p y then some (y, g y) else none) xs := by
          simp [List.filterMap_cons, hpx]
        rw [hcons, List.count_cons, hrest]
        by_cases hax : a = x
        · subst hax
          by_cases hs : s = g a
          · subst hs
            simp [hx, hpx]
          · simp [hx, hpx, hs, beq_iff_eq, Prod.ext_iff, Ne.symm hs]
        · simp [List.mem_cons, hax, beq_iff_eq, Prod.ext_iff, Ne.symm hax]
      · have hcons : (List.filterMap (fun y => if p y then some (y, g y) else none) (x :: xs)) =
            List.filterMap (fun y => if p y then some (y, g y) else none) xs := by
          simp [List.filterMap_cons, hpx]
        rw [hcons, hrest]
        by_cases hax : a = x
        · subst hax
          simp [hx, hpx]
        · simp [List.mem_cons, hax]

/-- Multiplicity of `(a, s)` among the matches of a single candidate. -/
lemma count_matches_one_candidate (v : Action → ℚ) (c : ℚ) (cand : List Char)
    (a : Action) (s : ℚ) :
    ((actionList.filterMap fun x =>
        if containsSub (keywordChars x) (lowerChars cand)
        then some (x, v x * c) else none).count (a, s)) =
      if containsSub (keywordChars a) (lowerChars cand) = true ∧ s = v a * c
      then 1 else 0 := by
  have h := count_filterMap_nodup actionList actionList_nodup
      (fun x => containsSub (keywordChars x) (lowerChars cand)) (fun x => v x * c) a s
  simpa [mem_actionList a] using h

/-- Multiplicity of `(a, s)` in the whole score list: the number of
candidates containing `a`'s keyword when `s` is `a`'s value times the
confidence, and zero for any other score. -/
lemma count_scoreCandidates (v : Action → ℚ) (c : ℚ) (cands : List (List Char))
    (a : Action) (s : ℚ) :
    (scoreCandidates v c cands).count (a, s) =
      if s = v a * c
      then cands.countP fun cand => containsSub (keywordChars a) (lowerChars cand)
      else 0 := by
  induction cands with
  | nil => simp [scoreCandidates]
  | cons cand rest ih =>
      have hcons : scoreCandidates v c (cand :: rest) =
          (actionList.filterMap fun x =>
            if containsSub (keywordChars x) (lowerChars cand)
            then some (x, v x * c) else none) ++ scoreCandidates v c rest := by
        simp [scoreCandidates]
      rw [hcons, List.count_append, ih, count_matches_one_candidate, List.countP_cons]
      by_cases hs : s = v a * c
      · by_cases hp : containsSub (keywordChars a) (lowerChars cand) = true
        · simp only [hs, hp, if_true, true_and, and_self, ite_true]
          omega
        · simp [hs, hp]
      · simp [hs]

/-! ### Claim theorems -/

/-- C1: For every candidate returned by the language model and every Action
in enumeration order, the action matches exactly when its canonical lowercase
keyword is a literal substring of the candidate's lowercased text, and every
match appends a separate `(action, get_value(action) * confidence)` pair:
the score list is, candidate by candidate, the enumeration-ordered matching
actions paired with `value × confidence`, and the multiplicity of every pair
`(a, s)` is the number of candidates containing `a`'s keyword when
`s = v a * confidence`, and zero otherwise. -/
theorem c1_keyword_match_scores (lm : String → List (List Char)) (v : Action → ℚ)
    (context : String) (angle confidence : ℚ) (a : Action) (s : ℚ) :
    scoreCandidates v confidence (lm (mkPrompt context angle confidence)) =
      ((lm (mkPrompt context angle confidence)).flatMap fun cand =>
        (actionList.filter fun x => containsSub (keywordChars x) (lowerChars cand)).map
          fun x => (x, v x * confidence)) ∧
    (scoreCandidates v confidence (lm (mkPrompt context angle confidence))).count (a, s) =
      (if s = v a * confidence
       then (lm (mkPrompt context angle confidence)).countP
         fun cand => containsSub (keywordChars a) (lowerChars cand)
       else 0) :=
  ⟨scoreCandidates_eq v confidence _, count_scoreCandidates v confidence _ a s⟩

/-- C2: Whenever the score list is non-empty, `select_action` returns the
action of a pair whose score is maximal over the whole list, and every pair
strictly before that pair in list order has a strictly smaller score — the
first pair attaining the maximum wins. -/
theorem c2_select_first_max (lm : String → List (List Char)) (v : Action → ℚ)
    (context : String) (angle confidence : ℚ)
    (h : scoreCandidates v confidence (lm (mkPrompt context angle confidence)) ≠ []) :
    ∃ s l₁ l₂,
      scoreCandidates v confidence (lm (mkPrompt context angle confidence)) =
        l₁ ++ (select_action lm v context angle confidence, s) :: l₂ ∧
      (∀ q ∈ scoreCandidates v confidence (lm (mkPrompt context angle confidence)),
        q.2 ≤ s) ∧
      (∀ q ∈ l₁, q.2 < s) := by
  cases hsc : scoreCandidates v confidence (lm (mkPrompt context angle confidence)) with
  | nil => exact absurd hsc h
  | cons p rest =>
      obtain ⟨l₁, l₂, hsplit, hub, hstr⟩ := foldl_betterOf_first_max rest p
      refine ⟨(rest.foldl betterOf p).2, l₁, l₂, ?_, ?_, ?_⟩
      · have hsel : select_action lm v context angle confidence =
            (rest.foldl betterOf p).1 := by
          unfold select_action
          rw [hsc]
          rfl
        rw [hsel]
        simpa using hsplit
      · intro q hq
        exact hub q hq
      · exact hstr

/-- C2 witness: a concrete run with candidates `["stop now"]` and
confidence 1: the score list is non-empty and the first-max split exists. -/
theorem c2_select_first_max_witness :
    scoreCandidates get_value 1
        ((fun _ => ["stop now".toList]) (mkPrompt "a quiet room" 45 1)) ≠ [] ∧
    ∃ s l₁ l₂,
      scoreCandidates get_value 1
          ((fun _ => ["stop now".toList]) (mkPrompt "a quiet room" 45 1)) =
        l₁ ++ (select_action (fun _ => ["stop now".toList]) get_value
          "a quiet room" 45 1, s) :: l₂ ∧
      (∀ q ∈ scoreCandidates get_value 1
          ((fun _ => ["stop now".toList]) (mkPrompt "a quiet room" 45 1)),
        q.2 ≤ s) ∧
      (∀ q ∈ l₁, q.2 < s) := by
  have hne : scoreCandidates get_value 1
      ((fun _ => ["stop now".toList]) (mkPrompt "a quiet room" 45 1)) ≠ [] := by
    rw [scoreCandidates_eq]
    simp only [List.flatMap_cons, List.flatMap_nil]
    rw [show (List.filter (fun a => containsSub (keywordChars a)
          (lowerChars "stop now".toList)) actionList) = [Action.STOP] from by decide]
    simp
  exact ⟨hne, c2_select_first_max (fun _ => ["stop now".toList]) get_value
    "a quiet room" 45 1 hne⟩

/-- C5: If no candidate returned by the language model contains any action
keyword (in particular when the candidate list is empty), `select_action`
returns STOP, for every context, angle and confidence. -/
theorem c5_no_keyword_stop (lm : String → List (List Char)) (v : Action → ℚ)
    (context : String) (angle confidence : ℚ)
    (h : ∀ cand ∈ lm (mkPrompt context angle confidence), ∀ a : Action,
      containsSub (keywordChars a) (lowerChars cand) = false) :
    select_action lm v context angle confidence = Action.STOP := by
  unfold select_action
  rw [scoreCandidates_eq_nil h]
  rfl

/-- C5 witness: the empty candidate list yields STOP. -/
theorem c5_no_keyword_stop_witness :
    (∀ cand ∈ (fun _ : String => ([] : List (List Char)))
        (mkPrompt "a quiet room" 45 (9/10)), ∀ a : Action,
      containsSub (keywordChars a) (lowerChars cand) = false) ∧
    select_action (fun _ => []) get_value "a quiet room" 45 (9/10) = Action.STOP := by
  have hempty : ∀ cand ∈ (fun _ : String => ([] : List (List Char)))
      (mkPrompt "a quiet room" 45 (9/10)), ∀ a : Action,
      containsSub (keywordChars a) (lowerChars cand) = false := by
    intro cand hcand
    exact absurd hcand (List.not_mem_nil cand)
  exact ⟨hempty, c5_no_keyword_stop (fun _ => []) get_value "a quiet room" 45 (9/10) hempty⟩

/-- C7: `get_value` is total over the Action domain: every action present
in the value table gets its stored weight, and an action absent from the
table gets 0 rather than failing. -/
theorem c7_get_value_total :
    ∀ a : Action,
      (∃ w, simpleValues.lookup a = some w ∧ get_value a = w) ∨
      (simpleValues.lookup a = none ∧ get_value a = 0) := by
  intro a
  cases a <;> exact Or.inl ⟨_, rfl, rfl⟩

/-- C10: With the language model's returned candidate list held fixed, the
selected action is independent of the angle and the context description:
two runs differing only in angle and context but receiving the same
candidates for their prompts (and the same confidence) select the same
action. -/
theorem c10_scoring_ignores_context_angle (v : Action → ℚ) (confidence : ℚ)
    (context₁ context₂ : String) (angle₁ angle₂ : ℚ)
    (lm₁ lm₂ : String → List (List Char))
    (h : lm₁ (mkPrompt context₁ angle₁ confidence) =
      lm₂ (mkPrompt context₂ angle₂ confidence)) :
    select_action lm₁ v context₁ angle₁ confidence =
      select_action lm₂ v context₂ angle₂ confidence := by
  unfold select_action
  rw [h]

/-- C10 witness: two runs with different contexts and angles but identical
candidate lists select the same action. -/
theorem c10_scoring_ignores_context_angle_witness :
    (fun _ : String => (["move forward now".toList] : List (List Char)))
        (mkPrompt "a quiet room" 10 1) =
      (fun _ : String => (["move forward now".toList] : List (List Char)))
        (mkPrompt "a loud hall" 350 1) ∧
    select_action (fun _ => ["move forward now".toList]) get_value "a quiet room" 10 1 =
      select_action (fun _ => ["move forward now".toList]) get_value "a loud hall" 350 1 :=
  ⟨rfl, c10_scoring_ignores_context_angle get_value 1 "a quiet room" "a loud hall"
    10 350 (fun _ => ["move forward now".toList]) (fun _ => ["move forward now".toList]) rfl⟩

lemma scores_mf_conf_zero :
    scoreCandidates get_value 0 ["move_forward".toList] = [(Action.MOVE_FORWARD, 0)] := by
  rw [scoreCandidates_eq]
  simp only [List.flatMap_cons, List.flatMap_nil]
  rw [show (List.filter (fun a => containsSub (keywordChars a)
        (lowerChars "move_forward".toList)) actionList) = [Action.MOVE_FORWARD] from by decide]
  simp

/-- C3 counterexample: with confidence 0 and the single candidate
"move_forward", `select_action` returns MOVE_FORWARD (the one pair in the
score list, with score 0), not STOP. -/
theorem c3_conf_zero_counterexample :
    select_action (fun _ => ["move_forward".toList]) get_value
      "The robot table is in a quiet room." 45 0 ≠ Action.STOP := by
  unfold select_action
  show pickMax (scoreCandidates get_value 0 ["move_forward".toList]) ≠ Action.STOP
  rw [scores_mf_conf_zero]
  decide

/-- C3 amended: with confidence 0 every score is 0, so when the score list
is non-empty `select_action` returns the action of its first pair (first
candidate, first matching action in enumeration order) — which is STOP only
when no keyword matches at all or the first match happens to be STOP. -/
theorem c3_conf_zero_first_match (lm : String → List (List Char)) (v : Action → ℚ)
    (context : String) (angle : ℚ) (p : Action × ℚ) (rest : List (Action × ℚ))
    (h : scoreCandidates v 0 (lm (mkPrompt context angle 0)) = p :: rest) :
    select_action lm v context angle 0 = p.1 := by
  have hz : ∀ q ∈ p :: rest, q.2 = 0 := by
    intro q hq
    rw [← h] at hq
    obtain ⟨a, rfl⟩ := mem_scoreCandidates hq
    exact mul_zero _
  have hfold : rest.foldl betterOf p = p := by
    refine foldl_betterOf_le rest p ?_
    intro q hq
    rw [hz q (List.mem_cons_of_mem p hq), hz p (List.mem_cons_self p rest)]
  unfold select_action
  rw [h]
  show (rest.foldl betterOf p).1 = p.1
  rw [hfold]

/-- C3 amended witness: the concrete confidence-0 run whose score list is
`[(MOVE_FORWARD, 0)]` selects MOVE_FORWARD. -/
theorem c3_conf_zero_first_match_witness :
    scoreCandidates get_value 0 ["move_forward".toList] = [(Action.MOVE_FORWARD, 0)] ∧
    select_action (fun _ => ["move_forward".toList]) get_value
      "The robot table is in a quiet room." 45 0 = Action.MOVE_FORWARD :=
  ⟨scores_mf_conf_zero,
    c3_conf_zero_first_match (fun _ => ["move_forward".toList]) get_value
      "The robot table is in a quiet room." 45 (Action.MOVE_FORWARD, 0) []
      scores_mf_conf_zero⟩

lemma scores_scenario :
    scoreCandidates get_value (1/2) ["move_forward_left please".toList,
      "spin_clockwise too".toList] =
      [(Action.MOVE_FORWARD, 1/4), (Action.MOVE_FORWARD_LEFT, 9/40),
       (Action.SPIN_CLOCKWISE, 3/20)] := by
  rw [scoreCandidates_eq]
  simp only [List.flatMap_cons, List.flatMap_nil]
  rw [show (List.filter (fun a => containsSub (keywordChars a)
        (lowerChars "move_forward_left please".toList)) actionList) =
      [Action.MOVE_FORWARD, Action.MOVE_FORWARD_LEFT] from by decide]
  rw [show (List.filter (fun a => containsSub (keywordChars a)
        (lowerChars "spin_clockwise too".toList)) actionList) =
      [Action.SPIN_CLOCKWISE] from by decide]
  simp [get_value_cases]
  norm_num

/-- The spec section 8 scenario, evaluated on the code: the substring scan
also matches MOVE_FORWARD inside "move_forward_left", and
0.5 × 0.5 = 0.25 beats 0.45 × 0.5 = 0.225, so MOVE_FORWARD wins. -/
lemma select_scenario_eval :
    select_action lmScenario get_value "The robot table is in a quiet room." 45 (1/2) =
      Action.MOVE_FORWARD := by
  unfold select_action lmScenario
  show pickMax (scoreCandidates get_value (1/2) ["move_forward_left please".toList,
    "spin_clockwise too".toList]) = Action.MOVE_FORWARD
  rw [scores_scenario]
  norm_num [pickMax, betterOf]

/-- C4 counterexample: in the spec's scenario (candidates
"move_forward_left please" and "spin_clockwise too", shipped value table,
confidence 0.5) the code does not select MOVE_FORWARD_LEFT. -/
theorem c4_scenario_counterexample :
    select_action lmScenario get_value "The robot table is in a quiet room." 45 (1/2) ≠
      Action.MOVE_FORWARD_LEFT := by
  rw [select_scenario_eval]
  decide

/-- C4 amended: in that scenario `select_action` returns MOVE_FORWARD
(the keyword "move_forward" is also a substring of "move_forward_left
please", and its score 0.5 × 0.5 = 0.25 exceeds 0.45 × 0.5 = 0.225), and the
resulting velocity command at the default speed 0.2 is (0.2, 0, 0). -/
theorem c4_scenario_amended :
    select_action lmScenario get_value "The robot table is in a quiet room." 45 (1/2) =
      Action.MOVE_FORWARD ∧
    get_twist_for_action Action.MOVE_FORWARD DEFAULT_SPEED =
      { linear_x := 0.2, linear_y := 0, linear_z := 0,
        angular_x := 0, angular_y := 0, angular_z := 0 } := by
  refine ⟨select_scenario_eval, ?_⟩
  simp [get_twist_for_action, DEFAULT_SPEED]

/-- C6: `get_twist_for_action` agrees with the spec section 4.4 table for
every action and every speed: ±s on one linear axis for the four axis moves,
components of magnitude s·cos(π/4) with the table's signs on both linear
axes for the four diagonals, ∓s on angular_z for the spins, and all zeros
for STOP.  Totality and determinism hold by construction: it is a function
on the 11-action domain. -/
theorem c6_twist_matches_spec_table (a : Action) (s : ℝ) :
    get_twist_for_action a s = specTwistTable a s := by
  cases a <;> simp [get_twist_for_action, specTwistTable, DIAGONAL_FACTOR]

/-- C8 counterexample: when the language model raises, `select_actionE`
returns the propagated error, not `ok STOP` — the current sample is not
turned into STOP by the core. -/
theorem c8_lm_error_counterexample :
    select_actionE (fun _ => (Except.error "model failure" :
        Except String (List (List Char)))) get_value
        "The robot table is in a quiet room." 45 (9/10) =
      Except.error "model failure" ∧
    (Except.error "model failure" : Except String Action) ≠ Except.ok Action.STOP :=
  ⟨rfl, fun h => nomatch h⟩

/-- C8 amended: an error raised by the language model during `generate`
propagates out of `select_action` unhandled (the source wraps the call in no
try/except), rather than being converted into a STOP result. -/
theorem c8_lm_error_propagates {ε : Type} (lm : String → Except ε (List (List Char)))
    (v : Action → ℚ) (context : String) (angle confidence : ℚ) (e : ε)
    (h : lm (mkPrompt context angle confidence) = Except.error e) :
    select_actionE lm v context angle confidence = Except.error e := by
  unfold select_actionE
  rw [h]

/-- C8 amended witness: a concrete always-raising language model propagates
its error through `select_actionE`. -/
theorem c8_lm_error_propagates_witness :
    (fun _ : String => (Except.error "boom" : Except String (List (List Char))))
        (mkPrompt "a quiet room" 45 (9/10)) = Except.error "boom" ∧
    select_actionE (fun _ => (Except.error "boom" :
        Except String (List (List Char)))) get_value "a quiet room" 45 (9/10) =
      Except.error "boom" :=
  ⟨rfl, c8_lm_error_propagates (fun _ => Except.error "boom") get_value
    "a quiet room" 45 (9/10) "boom" rfl⟩

/-- C9: every command is a pure translation, a pure rotation, or zero: the
twist never has nonzero linear.z, angular.x or angular.y, and never a
nonzero linear (x, y) together with a nonzero angular.z. -/
theorem c9_twist_pure_motion (a : Action) (s : ℝ) :
    (get_twist_for_action a s).linear_z = 0 ∧
    (get_twist_for_action a s).angular_x = 0 ∧
    (get_twist_for_action a s).angular_y = 0 ∧
    (((get_twist_for_action a s).linear_x = 0 ∧
      (get_twist_for_action a s).linear_y = 0) ∨
     (get_twist_for_action a s).angular_z = 0) := by
  cases a <;> simp [get_twist_for_action]

end OmniTable
